import Mathlib

/-!
# Formal model of the CountryCompare caching engine and economic estimator

A shallow embedding, in Lean 4, of the code in
`backend/utils/cache_manager.py` (the `CacheItem` / `MemoryCache` /
`CacheDecorator` subsystem together with the cache-key normalizer
`_generate_key`) and of the economic-data estimation pipeline
`get_economic_data` in `backend/app.py`.

Modelling conventions:
* Wall-clock time (`datetime.utcnow()`) is an explicit `Int` parameter
  threaded through every operation; the Python code reads the real clock,
  which is monotone between successive calls.
* Python `dict` is modelled as an insertion-ordered association list
  `List (String × _)`; a real dict has unique keys, so removing every
  binding of a key coincides with `del d[k]`, and overwriting an existing
  key keeps its iteration position (as in CPython).
* Python numbers that take part in arithmetic are modelled as `Rat`
  (the estimator) or `Int`/`Nat` (timestamps, counters, sizes); `md5` is
  implemented bit-faithfully over the UTF-8 bytes using `Nat` arithmetic
  modulo `2 ^ 32`.
* Python `None` in a cached value position is modelled by `Option`.
-/

/-! ## Python scalar values appearing in cache keys -/

/-- A Python scalar that can occur inside a structured cache key:
the claims use strings and ints. -/
inductive PyVal where
  | str (s : String)
  | int (n : Int)
deriving DecidableEq, Repr

/-- A Python cache-key argument, per `MemoryCache._generate_key`:
a `str`, a `dict` (insertion-ordered association list with unique keys),
a `list`, a `tuple`, or any other object (modelled by its `str()` form). -/
inductive PyKey where
  | str (s : String)
  | dict (d : List (String × PyVal))
  | list (l : List PyVal)
  | tuple (l : List PyVal)
  | other (s : String)
deriving DecidableEq, Repr

/-! ## UTF-8 encoding (`str.encode()`) -/

/-- UTF-8 encoding of a single Unicode scalar value, as a list of bytes. -/
def utf8Char (c : Char) : List Nat :=
  let n := c.toNat
  if n < 0x80 then [n]
  else if n < 0x800 then
    [0xC0 ||| (n >>> 6), 0x80 ||| (n &&& 0x3F)]
  else if n < 0x10000 then
    [0xE0 ||| (n >>> 12), 0x80 ||| ((n >>> 6) &&& 0x3F), 0x80 ||| (n &&& 0x3F)]
  else
    [0xF0 ||| (n >>> 18), 0x80 ||| ((n >>> 12) &&& 0x3F),
     0x80 ||| ((n >>> 6) &&& 0x3F), 0x80 ||| (n &&& 0x3F)]

/-- `s.encode()`: the UTF-8 bytes of a string. -/
def utf8Encode (s : String) : List Nat :=
  s.data.flatMap utf8Char

/-! ## MD5 (`hashlib.md5`), RFC 1321, over `Nat` modulo `2 ^ 32` -/

namespace MD5

/-- The 64 sine-derived round constants `K[i] = floor(2^32 * |sin(i+1)|)`. -/
def K : List Nat :=
  [0xd76aa478, 0xe8c7b756, 0x242070db, 0xc1bdceee,
   0xf57c0faf, 0x4787c62a, 0xa8304613, 0xfd469501,
   0x698098d8, 0x8b44f7af, 0xffff5bb1, 0x895cd7be,
   0x6b901122, 0xfd987193, 0xa679438e, 0x49b40821,
   0xf61e2562, 0xc040b340, 0x265e5a51, 0xe9b6c7aa,
   0xd62f105d, 0x02441453, 0xd8a1e681, 0xe7d3fbc8,
   0x21e1cde6, 0xc33707d6, 0xf4d50d87, 0x455a14ed,
   0xa9e3e905, 0xfcefa3f8, 0x676f02d9, 0x8d2a4c8a,
   0xfffa3942, 0x8771f681, 0x6d9d6122, 0xfde5380c,
   0xa4beea44, 0x4bdecfa9, 0xf6bb4b60, 0xbebfbc70,
   0x289b7ec6, 0xeaa127fa, 0xd4ef3085, 0x04881d05,
   0xd9d4d039, 0xe6db99e5, 0x1fa27cf8, 0xc4ac5665,
   0xf4292244, 0x432aff97, 0xab9423a7, 0xfc93a039,
   0x655b59c3, 0x8f0ccc92, 0xffeff47d, 0x85845dd1,
   0x6fa87e4f, 0xfe2ce6e0, 0xa3014314, 0x4e0811a1,
   0xf7537e82, 0xbd3af235, 0x2ad7d2bb, 0xeb86d391]

/-- The per-round left-rotation amounts. -/
def S : List Nat :=
  [7, 12, 17, 22, 7, 12, 17, 22, 7, 12, 17, 22, 7, 12, 17, 22,
   5,  9, 14, 20, 5,  9, 14, 20, 5,  9, 14, 20, 5,  9, 14, 20,
   4, 11, 16, 23, 4, 11, 16, 23, 4, 11, 16, 23, 4, 11, 16, 23,
   6, 10, 15, 21, 6, 10, 15, 21, 6, 10, 15, 21, 6, 10, 15, 21]

/-- Bitwise complement on 32-bit words. -/
def not32 (x : Nat) : Nat := 0xFFFFFFFF ^^^ x

/-- Left rotation of a 32-bit word. -/
def rotl32 (x s : Nat) : Nat :=
  ((x <<< s) ||| (x >>> (32 - s))) % 4294967296

/-- Read a little-endian word from a list of bytes. -/
def leWord (bs : List Nat) : Nat :=
  bs.foldr (fun b acc => acc * 256 + b) 0

/-- The 16 little-endian message words of one 64-byte chunk. -/
def chunkWords (chunk : List Nat) : List Nat :=
  (List.range 16).map fun i => leWord ((chunk.drop (4 * i)).take 4)

/-- MD5 padding: append `0x80`, zero-pad to 56 mod 64, then the original
bit length as a little-endian 64-bit quantity. -/
def pad (msg : List Nat) : List Nat :=
  let n := msg.length
  let zeros := (55 + 64 - n % 64) % 64
  let bitLen := (8 * n) % (2 ^ 64)
  msg ++ [0x80] ++ List.replicate zeros 0 ++
    (List.range 8).map (fun i => (bitLen >>> (8 * i)) % 256)

/-- Split a byte list into chunks of 64 bytes. The fuel argument (any
bound on the number of chunks, in particular the list length) makes the
recursion structural, so the definition evaluates inside the kernel. -/
def chunks64Aux : Nat → List Nat → List (List Nat)
  | 0, _ => []
  | _, [] => []
  | fuel + 1, b :: bs => ((b :: bs).take 64) :: chunks64Aux fuel ((b :: bs).drop 64)

/-- Split a byte list into chunks of 64 bytes. -/
def chunks64 (l : List Nat) : List (List Nat) :=
  chunks64Aux l.length l

/-- One MD5 round on the running state `(a, b, c, d)`. -/
def round (M : List Nat) (st : Nat × Nat × Nat × Nat) (i : Nat) :
    Nat × Nat × Nat × Nat :=
  let (a, b, c, d) := st
  let (f, g) :=
    if i < 16 then ((b &&& c) ||| (not32 b &&& d), i)
    else if i < 32 then ((d &&& b) ||| (not32 d &&& c), (5 * i + 1) % 16)
    else if i < 48 then (b ^^^ c ^^^ d, (3 * i + 5) % 16)
    else (c ^^^ (b ||| not32 d), (7 * i) % 16)
  let f := (f + a + K.getD i 0 + M.getD g 0) % 4294967296
  (d, (b + rotl32 f (S.getD i 0)) % 4294967296, b, c)

/-- Compress one 64-byte chunk into the state. -/
def compress (st : Nat × Nat × Nat × Nat) (chunk : List Nat) :
    Nat × Nat × Nat × Nat :=
  let M := chunkWords chunk
  let (a0, b0, c0, d0) := st
  let (a, b, c, d) := (List.range 64).foldl (round M) st
  ((a0 + a) % 4294967296, (b0 + b) % 4294967296,
   (c0 + c) % 4294967296, (d0 + d) % 4294967296)

/-- Little-endian byte decomposition of a 32-bit word. -/
def leBytes (x : Nat) : List Nat :=
  [x % 256, (x >>> 8) % 256, (x >>> 16) % 256, (x >>> 24) % 256]

/-- The 16-byte MD5 digest of a byte list. -/
def digestBytes (msg : List Nat) : List Nat :=
  let st0 : Nat × Nat × Nat × Nat :=
    (0x67452301, 0xefcdab89, 0x98badcfe, 0x10325476)
  let (a, b, c, d) := (chunks64 (pad msg)).foldl compress st0
  leBytes a ++ leBytes b ++ leBytes c ++ leBytes d

/-- A lowercase hexadecimal digit. -/
def hexDigit (n : Nat) : Char :=
  if n < 10 then Char.ofNat (48 + n) else Char.ofNat (87 + n)

end MD5

/-- `hashlib.md5(s.encode()).hexdigest()`: the 32-character lowercase
hexadecimal digest of the UTF-8 bytes of `s` (two hex digits per digest
byte). -/
def md5Hex (s : String) : String :=
  String.mk ((MD5.digestBytes (utf8Encode s)).flatMap fun b =>
    [MD5.hexDigit (b / 16), MD5.hexDigit (b % 16)])

/-! ## `json.dumps` on the shapes `_generate_key` serializes -/

/-- `json.dumps` escape of one character (`ensure_ascii=True`). -/
def jsonEscapeChar (c : Char) : String :=
  let n := c.toNat
  if c = Char.ofNat 34 then "\\\""
  else if c = Char.ofNat 92 then "\\\\"
  else if c = Char.ofNat 8 then "\\b"
  else if c = Char.ofNat 12 then "\\f"
  else if c = Char.ofNat 10 then "\\n"
  else if c = Char.ofNat 13 then "\\r"
  else if c = Char.ofNat 9 then "\\t"
  else if n < 32 || 127 ≤ n then
    if n < 0x10000 then
      "\\u" ++ String.mk ((List.range 4).reverse.map fun i =>
        MD5.hexDigit ((n >>> (4 * i)) % 16))
    else
      let m := n - 0x10000
      let hi := 0xD800 + (m >>> 10)
      let lo := 0xDC00 + (m &&& 0x3FF)
      "\\u" ++ String.mk ((List.range 4).reverse.map fun i =>
        MD5.hexDigit ((hi >>> (4 * i)) % 16)) ++
      "\\u" ++ String.mk ((List.range 4).reverse.map fun i =>
        MD5.hexDigit ((lo >>> (4 * i)) % 16))
  else String.singleton c

/-- `json.dumps` of a Python string. -/
def jsonString (s : String) : String :=
  "\"" ++ String.join (s.data.map jsonEscapeChar) ++ "\""

/-- `json.dumps` of a Python scalar. -/
def jsonVal : PyVal → String
  | .str s => jsonString s
  | .int n => toString n

/-- `json.dumps` of a `(key, value)` tuple (serialized as a JSON array,
with the default `", "` item separator). -/
def jsonPair (p : String × PyVal) : String :=
  "[" ++ jsonString p.1 ++ ", " ++ jsonVal p.2 ++ "]"

/-- `json.dumps` of a list, given the serialized elements. -/
def jsonArr (items : List String) : String :=
  "[" ++ String.intercalate ", " items ++ "]"

/-! ## `MemoryCache._generate_key` -/

/-- `sorted(key.items())`: Python sorts the `(key, value)` tuples
lexicographically; dict keys are unique, so only the string keys are ever
compared. `mergeSort` is stable, like Python's `sorted`. -/
def pySortItems (d : List (String × PyVal)) : List (String × PyVal) :=
  d.mergeSort fun p q => decide (p.1 ≤ q.1)

/-- `MemoryCache._generate_key`: strings pass through unchanged; dicts are
item-sorted, JSON-serialized and MD5-hashed; lists and tuples are
JSON-serialized in order and MD5-hashed; anything else is `str()`-ed. -/
def generateKey : PyKey → String
  | .str s => s
  | .dict d => md5Hex (jsonArr ((pySortItems d).map jsonPair))
  | .list l => md5Hex (jsonArr (l.map jsonVal))
  | .tuple l => md5Hex (jsonArr (l.map jsonVal))
  | .other s => s

/-! ## `CacheItem` -/

/-- A cached item with metadata, from `cache_manager.CacheItem`.
`value` is the opaque payload; timestamps are explicit clock readings. -/
structure CacheItem (α : Type) where
  value : α
  ttl : Int
  created_at : Int
  access_count : Nat
  last_accessed : Int
deriving DecidableEq, Repr

/-- `CacheItem(value, ttl)` constructed at clock time `now`:
`created_at = now`, `access_count = 0`, `last_accessed = created_at`. -/
def CacheItem.create (value : α) (ttl : Int) (now : Int) : CacheItem α :=
  { value := value, ttl := ttl, created_at := now,
    access_count := 0, last_accessed := now }

/-- `CacheItem.is_expired` read at clock time `now`: `ttl <= 0` never
expires; otherwise expired once `now` is strictly past
`created_at + ttl`. -/
def CacheItem.is_expired (item : CacheItem α) (now : Int) : Bool :=
  if item.ttl ≤ 0 then false
  else decide (item.created_at + item.ttl < now)

/-- `CacheItem.touch` at clock time `now`: bump the access count and
refresh the last-accessed time. -/
def CacheItem.touch (item : CacheItem α) (now : Int) : CacheItem α :=
  { item with access_count := item.access_count + 1, last_accessed := now }

/-! ## Python-dict primitives on insertion-ordered association lists -/

/-- `d[k] = v` on a Python dict: overwrite in place if the key is present
(keeping its iteration position), otherwise append at the end. -/
def dictSet (k : String) (v : β) : List (String × β) → List (String × β)
  | [] => [(k, v)]
  | (k', v') :: t => if k' = k then (k, v) :: t else (k', v') :: dictSet k v t

/-- `d.get(k)` / `k in d` on a Python dict: the binding of `k`, if any. -/
def dictGet (k : String) : List (String × β) → Option β
  | [] => none
  | (k', v) :: t => if k' = k then some v else dictGet k t

/-- `del d[k]` on a Python dict: drop the binding of `k` (a dict has at
most one, so dropping every match is the same operation). -/
def dictErase (k : String) (l : List (String × β)) : List (String × β) :=
  l.filter fun p => decide (p.1 ≠ k)

/-! ## `MemoryCache` -/

/-- The in-memory cache, from `cache_manager.MemoryCache`: an
insertion-ordered entry map plus the immutable configuration. The lock
and the background sweep thread carry no extra state: each public
operation is modelled as the atomic state transformer it performs under
the lock, and the sweep is an extra `cleanup_expired` call. -/
structure MemoryCache (α : Type) where
  cache : List (String × CacheItem α)
  default_ttl : Int
  max_size : Nat
deriving DecidableEq, Repr

namespace MemoryCache

/-- `MemoryCache(default_ttl=3600, max_size=1000)`, starting empty. -/
def init (default_ttl : Int := 3600) (max_size : Nat := 1000) :
    MemoryCache α :=
  { cache := [], default_ttl := default_ttl, max_size := max_size }

/-- `min(self.cache.keys(), key=lambda k: self.cache[k].last_accessed)`:
Python's `min` scans in iteration order and replaces the champion only on
a strictly smaller key value, so it returns the first entry attaining the
minimal `last_accessed`. -/
def minByLastAccessed : List (String × CacheItem α) →
    Option (String × CacheItem α)
  | [] => none
  | x :: t => some (t.foldl
      (fun acc y => if y.2.last_accessed < acc.2.last_accessed then y else acc)
      x)

/-- `MemoryCache._evict_lru`: do nothing on an empty cache, otherwise
delete the entry with the minimal `last_accessed`. -/
def evictLRU (l : List (String × CacheItem α)) : List (String × CacheItem α) :=
  match minByLastAccessed l with
  | none => l
  | some (k, _) => dictErase k l

/-- `MemoryCache.get(key, default=None)`: returns the looked-up value (or
the default) together with the successor cache state. An expired entry is
lazily deleted and the default returned; a live entry is `touch`ed and
its value returned. -/
def get (c : MemoryCache α) (key : PyKey) (dflt : α) (now : Int) :
    α × MemoryCache α :=
  let k := generateKey key
  match dictGet k c.cache with
  | none => (dflt, c)
  | some item =>
    if item.is_expired now then
      (dflt, { c with cache := dictErase k c.cache })
    else
      (item.value, { c with cache := dictSet k (item.touch now) c.cache })

/-- `ttl = ttl or self.default_ttl` in `MemoryCache.set`: Python's `or`
replaces a falsy left operand, so `None` *and* `0` both fall back to the
default TTL, while any nonzero TTL (negative included) is kept. -/
def effectiveTtl (c : MemoryCache α) (ttl : Option Int) : Int :=
  match ttl with
  | none => c.default_ttl
  | some t => if t = 0 then c.default_ttl else t

/-- `MemoryCache.set(key, value, ttl=None)`: when the cache is at (or
over) `max_size` and the normalized key is new, evict one LRU entry
first; then insert or overwrite the entry with a fresh `CacheItem`. -/
def set (c : MemoryCache α) (key : PyKey) (v : α) (ttl : Option Int)
    (now : Int) : MemoryCache α :=
  let k := generateKey key
  let t := c.effectiveTtl ttl
  let cache1 :=
    if c.max_size ≤ c.cache.length ∧ (dictGet k c.cache).isNone then
      evictLRU c.cache
    else c.cache
  { c with cache := dictSet k (CacheItem.create v t now) cache1 }

/-- `MemoryCache.delete(key)`: remove the entry if present; report
whether a removal occurred. -/
def delete (c : MemoryCache α) (key : PyKey) :
    Bool × MemoryCache α :=
  let k := generateKey key
  match dictGet k c.cache with
  | none => (false, c)
  | some _ => (true, { c with cache := dictErase k c.cache })

/-- `MemoryCache.exists(key)`: true only for a present, unexpired entry;
an expired entry is lazily deleted, mirroring `get`. -/
def existsKey (c : MemoryCache α) (key : PyKey) (now : Int) :
    Bool × MemoryCache α :=
  let k := generateKey key
  match dictGet k c.cache with
  | none => (false, c)
  | some item =>
    if item.is_expired now then
      (false, { c with cache := dictErase k c.cache })
    else (true, c)

/-- `MemoryCache.cleanup_expired()`: drop every expired entry and return
how many were dropped. Invoked by the background sweep every
`_cleanup_interval` seconds and on demand. -/
def cleanup_expired (c : MemoryCache α) (now : Int) :
    Nat × MemoryCache α :=
  let expired := c.cache.filter fun p => p.2.is_expired now
  (expired.length,
   { c with cache := c.cache.filter fun p => !(p.2.is_expired now) })

/-- `MemoryCache.size()`. -/
def size (c : MemoryCache α) : Nat := c.cache.length

end MemoryCache

/-! ## `CacheDecorator` -/

/-- One invocation of the wrapper produced by `CacheDecorator.__call__`,
for a fixed wrapped function `f` and the fixed cache key derived from the
function name and arguments. Returns the result, the successor cache
state, and whether the wrapped function was (re-)executed: the wrapper
treats any non-`None` cached value as a hit, so `None` results are never
served from the cache. -/
def cachedCall (c : MemoryCache (Option β)) (f : Unit → Option β)
    (key : PyKey) (ttl : Int) (now : Int) :
    Option β × MemoryCache (Option β) × Bool :=
  let (result, c1) := c.get key none now
  match result with
  | some v => (some v, c1, false)
  | none =>
    let r := f ()
    (r, c1.set key r (some ttl) now, true)

/-! ## The economic-data estimator (`backend/app.py`, `get_economic_data`) -/

/-- The result record of `get_economic_data`: the five indicator fields
plus the provenance tag. Python floats are modelled as exact rationals. -/
structure EconData where
  gdp : ℚ
  gdp_per_capita : ℚ
  hdi : ℚ
  life_expectancy : ℚ
  internet_penetration : ℚ
  data_source : String
deriving DecidableEq, Repr

/-- The dictionary assembled by `WorldBankService.get_economic_data`: any
subset of the indicator fields may be present. `WorldBankService` returns
`None` instead of an empty dictionary, so the absent-data case is the
`none` of an enclosing `Option WBData`. -/
structure WBData where
  gdp : Option ℚ := none
  gdp_per_capita : Option ℚ := none
  hdi : Option ℚ := none
  life_expectancy : Option ℚ := none
  internet_penetration : Option ℚ := none
deriving DecidableEq, Repr

/-- The piecewise-linear HDI estimate from GDP per capita. The same
four-branch expression appears twice in `get_economic_data`: once to
back-fill a missing HDI from live data and once in the terminal
estimation tier. -/
def hdiFromGdpPerCapita (x : ℚ) : ℚ :=
  if x > 50000 then 0.9 + (x - 50000) / 1000000
  else if x > 20000 then 0.7 + (x - 20000) / 100000
  else if x > 5000 then 0.5 + (x - 5000) / 30000
  else 0.3 + x / 10000

/-- One row of the hard-coded `sample_data` table. -/
structure SampleEntry where
  gdp : ℚ
  hdi : ℚ
  life_expectancy : ℚ
  internet_penetration : ℚ
deriving DecidableEq, Repr

/-- The static `sample_data` table of `get_economic_data`, verbatim. -/
def sample_data : List (String × SampleEntry) :=
  [("Morocco", ⟨126000000000, 0.683, 76.1, 74.4⟩),
   ("Algeria", ⟨163000000000, 0.748, 77.0, 63.0⟩),
   ("Jamaica", ⟨15000000000, 0.734, 74.5, 55.0⟩),
   ("Comoros", ⟨1200000000, 0.554, 64.3, 8.0⟩),
   ("United Kingdom", ⟨3100000000000, 0.929, 81.3, 95.0⟩),
   ("Germany", ⟨4200000000000, 0.942, 81.0, 90.0⟩),
   ("Brazil", ⟨1600000000000, 0.754, 75.9, 70.0⟩),
   ("China", ⟨18000000000000, 0.761, 77.1, 70.0⟩),
   ("United States", ⟨25000000000000, 0.921, 78.9, 90.0⟩),
   ("Japan", ⟨4900000000000, 0.919, 84.6, 93.0⟩),
   ("India", ⟨3400000000000, 0.645, 70.4, 45.0⟩),
   ("France", ⟨2900000000000, 0.901, 82.7, 88.0⟩),
   ("Canada", ⟨2000000000000, 0.929, 82.3, 95.0⟩),
   ("Australia", ⟨1600000000000, 0.944, 83.4, 90.0⟩),
   ("South Korea", ⟨1800000000000, 0.906, 83.0, 96.0⟩),
   ("Italy", ⟨2100000000000, 0.895, 83.5, 76.0⟩),
   ("Spain", ⟨1400000000000, 0.904, 83.2, 88.0⟩),
   ("Mexico", ⟨1300000000000, 0.779, 75.0, 70.0⟩),
   ("Russia", ⟨1800000000000, 0.824, 73.2, 80.0⟩),
   ("South Africa", ⟨420000000000, 0.713, 64.3, 60.0⟩)]

/-- The `region_multipliers` table (defined in the source but never
read afterwards). -/
def region_multipliers : List (String × ℚ) :=
  [("Europe", 1.8), ("North America", 2.0), ("Asia", 0.9),
   ("South America", 0.7), ("Africa", 0.4), ("Oceania", 1.5),
   ("Antarctic", 0.1)]

/-- The `base_gdp_by_region` table. -/
def base_gdp_by_region : List (String × ℚ) :=
  [("Europe", 25000), ("North America", 30000), ("Asia", 8000),
   ("South America", 12000), ("Africa", 3000), ("Oceania", 20000),
   ("Antarctic", 1000)]

/-- Value of a lowercase hexadecimal digit. -/
def hexVal (c : Char) : Nat :=
  let n := c.toNat
  if 48 ≤ n ∧ n ≤ 57 then n - 48
  else if 97 ≤ n ∧ n ≤ 102 then n - 87
  else 0

/-- `int(s, 16)` for a lowercase hex string. -/
def parseHexNat (s : String) : Nat :=
  s.data.foldl (fun acc c => acc * 16 + hexVal c) 0

/-- `int(hashlib.md5(country_name.encode()).hexdigest()[:8], 16)`: the
stable per-country seed of the estimation tier. -/
def countryHash (country_name : String) : Nat :=
  parseHexNat ((md5Hex country_name).take 8)

/-- Python's `round(q, ndigits)` on an exactly represented value: round
half to even at the given number of decimal digits. -/
def pyRound (q : ℚ) (ndigits : Nat) : ℚ :=
  let m : ℚ := (10 : ℚ) ^ ndigits
  let y := q * m
  let fl : ℤ := ⌊y⌋
  let fr : ℚ := y - (fl : ℚ)
  let r : ℤ :=
    if fr < 1 / 2 then fl
    else if 1 / 2 < fr then fl + 1
    else if 2 ∣ fl then fl else fl + 1
  (r : ℚ) / m

/-- The population-size multiplier of the estimation tier. -/
def populationFactor (population : Nat) : ℚ :=
  if population > 100000000 then 0.6
  else if population > 50000000 then 0.8
  else if population > 10000000 then 1.0
  else if population > 1000000 then 1.2
  else 1.4

/-- `get_economic_data(country_name, population, region=None)` from
`backend/app.py`, with the live provider's reply
(`WorldBankService.get_economic_data`, an external network call) passed
in as the explicit argument `world_bank_data`.

Tier 1: when the provider returned data, back-fill a missing HDI from
GDP per capita and tag the result `"world_bank"`. Tier 2: when the
country is in the static `sample_data` table, take the table row, compute
GDP per capita as `gdp / population` (0 for a zero population) and tag
`"sample"`. Tier 3: deterministic estimation seeded by the MD5 hash of
the country name, tagged `"estimated"`. -/
def get_economic_data (country_name : String) (population : Nat)
    (region : Option String) (world_bank_data : Option WBData) : EconData :=
  match world_bank_data with
  | some wb =>
    let wb :=
      if wb.hdi.isNone ∧ wb.gdp_per_capita.isSome then
        { wb with hdi := some (min 0.99 (max 0.3
            (hdiFromGdpPerCapita (wb.gdp_per_capita.getD 0)))) }
      else wb
    { gdp := wb.gdp.getD 0,
      gdp_per_capita := wb.gdp_per_capita.getD 0,
      hdi := wb.hdi.getD 0,
      life_expectancy := wb.life_expectancy.getD 0,
      internet_penetration := wb.internet_penetration.getD 0,
      data_source := "world_bank" }
  | none =>
    match dictGet country_name sample_data with
    | some data =>
      let gdp_per_capita : ℚ :=
        if population > 0 then data.gdp / (population : ℚ) else 0
      { gdp := data.gdp,
        gdp_per_capita := gdp_per_capita,
        hdi := data.hdi,
        life_expectancy := data.life_expectancy,
        internet_penetration := data.internet_penetration,
        data_source := "sample" }
    | none =>
      let region_key := match region with
        | none => "Asia"
        | some r => if r = "" then "Asia" else r
      let base_gdp_per_capita := (dictGet region_key base_gdp_by_region).getD 8000
      let country_hash := countryHash country_name
      let variation_factor : ℚ := 0.5 + ((country_hash % 100 : Nat) : ℚ) / 100
      let population_factor := populationFactor population
      let estimated_gdp_per_capita :=
        base_gdp_per_capita * variation_factor * population_factor
      let estimated_gdp : ℚ :=
        if population > 0 then estimated_gdp_per_capita * (population : ℚ) else 0
      let base_hdi := hdiFromGdpPerCapita estimated_gdp_per_capita
      let hdi_variation : ℚ := (((country_hash % 20 : Nat) : ℚ) - 10) / 1000
      let estimated_hdi := min 0.99 (max 0.3 (base_hdi + hdi_variation))
      let base_life_expectancy := 50 + estimated_hdi * 35
      let life_variation : ℚ := ((country_hash % 10 : Nat) : ℚ) - 5
      let estimated_life_expectancy :=
        min 85 (max 50 (base_life_expectancy + life_variation))
      let base_internet := estimated_hdi * 100
      let internet_variation : ℚ := ((country_hash % 15 : Nat) : ℚ) - 7.5
      let estimated_internet := min 95 (max 5 (base_internet + internet_variation))
      { gdp := estimated_gdp,
        gdp_per_capita := estimated_gdp_per_capita,
        hdi := pyRound estimated_hdi 3,
        life_expectancy := pyRound estimated_life_expectancy 1,
        internet_penetration := pyRound estimated_internet 1,
        data_source := "estimated" }


/-! ## Association-list lemmas -/

section DictLemmas

variable {β : Type}

theorem dictGet_dictSet_self (k : String) (v : β) (l : List (String × β)) :
    dictGet k (dictSet k v l) = some v := by
  induction l with
  | nil => simp [dictSet, dictGet]
  | cons p t ih =>
    obtain ⟨k', v'⟩ := p
    by_cases h : k' = k
    · simp [dictSet, dictGet, h]
    · simpa [dictSet, dictGet, h] using ih

theorem dictGet_dictSet_ne {k k' : String} (h : k' ≠ k) (v : β)
    (l : List (String × β)) :
    dictGet k' (dictSet k v l) = dictGet k' l := by
  induction l with
  | nil => simp [dictSet, dictGet, Ne.symm h]
  | cons p t ih =>
    obtain ⟨k₀, v₀⟩ := p
    by_cases h₀ : k₀ = k
    · subst h₀
      simp [dictSet, dictGet, Ne.symm h]
    · by_cases h₁ : k₀ = k'
      · simp [dictSet, dictGet, h₀, h₁, h]
      · simpa [dictSet, dictGet, h₀, h₁] using ih

theorem dictGet_dictErase_self (k : String) (l : List (String × β)) :
    dictGet k (dictErase k l) = none := by
  induction l with
  | nil => simp [dictErase, dictGet]
  | cons p t ih =>
    obtain ⟨k₀, v₀⟩ := p
    by_cases h : k₀ = k
    · simpa [dictErase, List.filter, h] using ih
    · simpa [dictErase, List.filter, dictGet, h] using ih

theorem dictGet_dictErase_ne {k k' : String} (h : k' ≠ k)
    (l : List (String × β)) :
    dictGet k' (dictErase k l) = dictGet k' l := by
  induction l with
  | nil => simp [dictErase]
  | cons p t ih =>
    obtain ⟨k₀, v₀⟩ := p
    by_cases h₀ : k₀ = k
    · subst h₀
      simpa [dictErase, List.filter, dictGet, Ne.symm h] using ih
    · by_cases h₁ : k₀ = k'
      · simp [dictErase, List.filter, dictGet, h₀, h₁, h]
      · simpa [dictErase, List.filter, dictGet, h₀, h₁] using ih

theorem length_dictSet_present {k : String} {l : List (String × β)}
    (h : (dictGet k l).isSome) (v : β) :
    (dictSet k v l).length = l.length := by
  induction l with
  | nil => simp [dictGet] at h
  | cons p t ih =>
    obtain ⟨k₀, v₀⟩ := p
    by_cases h₀ : k₀ = k
    · simp [dictSet, h₀]
    · have h' : (dictGet k t).isSome := by simpa [dictGet, h₀] using h
      simp [dictSet, h₀, ih h']

theorem length_dictSet_absent {k : String} {l : List (String × β)}
    (h : dictGet k l = none) (v : β) :
    (dictSet k v l).length = l.length + 1 := by
  induction l with
  | nil => simp [dictSet]
  | cons p t ih =>
    obtain ⟨k₀, v₀⟩ := p
    by_cases h₀ : k₀ = k
    · simp [dictGet, h₀] at h
    · have h' : dictGet k t = none := by simpa [dictGet, h₀] using h
      simp [dictSet, h₀, ih h']

theorem length_dictErase_le (k : String) (l : List (String × β)) :
    (dictErase k l).length ≤ l.length :=
  List.length_filter_le _ l

theorem length_dictErase_lt {k : String} {l : List (String × β)}
    (h : (dictGet k l).isSome) :
    (dictErase k l).length < l.length := by
  induction l with
  | nil => simp [dictGet] at h
  | cons p t ih =>
    obtain ⟨k₀, v₀⟩ := p
    by_cases h₀ : k₀ = k
    · simpa [dictErase, List.filter, h₀] using
        Nat.lt_succ_of_le (List.length_filter_le _ t)
    · have h' : (dictGet k t).isSome := by simpa [dictGet, h₀] using h
      simpa [dictErase, List.filter, h₀] using Nat.succ_lt_succ (ih h')

theorem length_dictErase_nodup {k : String} {l : List (String × β)}
    (hnd : (l.map Prod.fst).Nodup) (h : (dictGet k l).isSome) :
    (dictErase k l).length + 1 = l.length := by
  induction l with
  | nil => simp [dictGet] at h
  | cons p t ih =>
    obtain ⟨k₀, v₀⟩ := p
    simp only [List.map_cons, List.nodup_cons] at hnd
    by_cases h₀ : k₀ = k
    · have ht : dictErase k t = t := by
        apply List.filter_eq_self.mpr
        rintro ⟨a, b⟩ hq
        have : a ≠ k := fun hak => by
          apply hnd.1
          rw [h₀, ← hak]
          exact List.mem_map_of_mem Prod.fst hq
        simpa using this
      have hcons : dictErase k ((k₀, v₀) :: t) = t := by
        rw [← ht]
        simp [dictErase, List.filter, h₀]
      simp [hcons]
    · have h' : (dictGet k t).isSome := by simpa [dictGet, h₀] using h
      simpa [dictErase, List.filter, h₀] using ih hnd.2 h'

end DictLemmas

/-! ## Membership and minimum lemmas -/

theorem dictGet_isSome_of_mem {β : Type} {k : String} {v : β}
    {l : List (String × β)} (h : (k, v) ∈ l) : (dictGet k l).isSome := by
  induction l with
  | nil => simp at h
  | cons p t ih =>
    obtain ⟨k₀, v₀⟩ := p
    rcases List.mem_cons.mp h with h' | h'
    · obtain ⟨h1, h2⟩ := Prod.mk.injEq .. ▸ h'
      simp [dictGet, h1.symm]
    · by_cases h₀ : k₀ = k
      · simp [dictGet, h₀]
      · simpa [dictGet, h₀] using ih h'

section MinBy

variable {α : Type}

theorem foldl_minBy_mem (x : String × CacheItem α)
    (t : List (String × CacheItem α)) :
    t.foldl
      (fun acc y => if y.2.last_accessed < acc.2.last_accessed then y else acc)
      x ∈ x :: t := by
  induction t generalizing x with
  | nil => simp
  | cons z t ih =>
    have := ih (if z.2.last_accessed < x.2.last_accessed then z else x)
    rcases List.mem_cons.mp this with h | h
    · rw [List.foldl_cons, h]
      by_cases hz : z.2.last_accessed < x.2.last_accessed <;>
        simp [hz]
    · simp [List.foldl_cons]
      right; right; exact h

theorem foldl_minBy_le (x : String × CacheItem α)
    (t : List (String × CacheItem α)) :
    ∀ y ∈ x :: t,
      (t.foldl
        (fun acc y => if y.2.last_accessed < acc.2.last_accessed then y else acc)
        x).2.last_accessed ≤ y.2.last_accessed := by
  induction t generalizing x with
  | nil => intro y hy; simp at hy; simp [hy]
  | cons z t ih =>
    intro y hy
    have hstep_le_x :
        (if z.2.last_accessed < x.2.last_accessed then z else x).2.last_accessed
          ≤ x.2.last_accessed := by
      by_cases hz : z.2.last_accessed < x.2.last_accessed <;> simp [hz]
      exact le_of_lt hz
    have hstep_le_z :
        (if z.2.last_accessed < x.2.last_accessed then z else x).2.last_accessed
          ≤ z.2.last_accessed := by
      by_cases hz : z.2.last_accessed < x.2.last_accessed <;> simp [hz]
      exact le_of_not_lt hz
    rcases List.mem_cons.mp hy with h | h
    · subst h
      calc _ ≤ _ :=
          ih _ _ (List.mem_cons_self _ _)
        _ ≤ y.2.last_accessed := hstep_le_x
    · rcases List.mem_cons.mp h with h' | h'
      · subst h'
        calc _ ≤ _ := ih _ _ (List.mem_cons_self _ _)
          _ ≤ y.2.last_accessed := hstep_le_z
      · exact ih _ _ (List.mem_cons_of_mem _ h')

theorem minByLastAccessed_spec {l : List (String × CacheItem α)}
    {p : String × CacheItem α} (h : MemoryCache.minByLastAccessed l = some p) :
    p ∈ l ∧ ∀ q ∈ l, p.2.last_accessed ≤ q.2.last_accessed := by
  cases l with
  | nil => simp [MemoryCache.minByLastAccessed] at h
  | cons x t =>
    simp only [MemoryCache.minByLastAccessed, Option.some.injEq] at h
    subst h
    exact ⟨foldl_minBy_mem x t, foldl_minBy_le x t⟩

theorem minByLastAccessed_isSome {l : List (String × CacheItem α)}
    (h : l ≠ []) : ∃ p, MemoryCache.minByLastAccessed l = some p := by
  cases l with
  | nil => exact absurd rfl h
  | cons x t => exact ⟨_, rfl⟩

end MinBy

/-! ## C1: `set(k, v, ttl=0)` and expiry -/

/-- C1: the claim says an item stored with `set(k, v, ttl=0)` never
expires. The code contradicts this: `set` computes
`ttl = ttl or self.default_ttl`, and Python's `or` treats `0` as falsy,
so an explicit `ttl=0` is silently replaced by the default TTL (3600 on
the default configuration). The item is therefore stored with
`ttl = 3600`, is still served at `t = 3600`, but at `t = 3601` `get`
returns the default and the backround sweep removes it, although
`CacheItem.is_expired` itself does implement "ttl <= 0 never expires". -/
theorem C1_set_ttl_zero_expires :
    let c : MemoryCache Nat := MemoryCache.init 3600 1000
    let c1 := c.set (.str "k") 1 (some 0) 0
    dictGet "k" c1.cache =
      some { value := 1, ttl := 3600, created_at := 0,
             access_count := 0, last_accessed := 0 } ∧
    (c1.get (.str "k") 0 3600).1 = 1 ∧
    (c1.get (.str "k") 0 3601).1 = 0 ∧
    (c1.cleanup_expired 3601).1 = 1 := by
  decide

/-! ## C2: the size bound after `set` -/

/-- C2 counterexample: with `maxSize = 0` the bound `|entries| <= maxSize`
holds before a `set` (the cache is empty) but not after it: `_evict_lru`
returns without evicting from an empty cache, and the insertion then
pushes the entry count to 1 > 0. -/
theorem C2_maxsize_zero_cex :
    let c : MemoryCache Nat :=
      { cache := [], default_ttl := 3600, max_size := 0 }
    c.size ≤ c.max_size ∧
    ¬ ((c.set (.str "a") 1 none 0).size ≤ c.max_size) := by
  decide

/-- C2 (amended): for every `MemoryCache` with `maxSize >= 1` and unique
keys whose entry count is at most `maxSize`, after any `set` the entry
count is still at most `maxSize`; and when the cache is exactly full and
the key is new, the LRU eviction performed before the insertion removes
exactly one entry. (The original claim fails only for `maxSize = 0`,
where a `set` of a new key leaves one entry in a cache whose bound is
zero.) -/
theorem C2_set_size_bound {α : Type} (c : MemoryCache α) (key : PyKey)
    (v : α) (ttl : Option Int) (now : Int) (hmax : 1 ≤ c.max_size)
    (hnd : (c.cache.map Prod.fst).Nodup) (hsz : c.size ≤ c.max_size) :
    (c.set key v ttl now).size ≤ c.max_size ∧
    (c.size = c.max_size → dictGet (generateKey key) c.cache = none →
      (MemoryCache.evictLRU c.cache).length + 1 = c.cache.length) := by
  have hevict : dictGet (generateKey key) c.cache = none →
      c.max_size ≤ c.cache.length →
      (MemoryCache.evictLRU c.cache).length + 1 = c.cache.length := by
    intro habs hfull
    have hne : c.cache ≠ [] := by
      intro h0
      rw [h0] at hfull
      simp at hfull
      omega
    obtain ⟨p, hp⟩ := minByLastAccessed_isSome hne
    obtain ⟨hmem, -⟩ := minByLastAccessed_spec hp
    unfold MemoryCache.evictLRU
    rw [hp]
    exact length_dictErase_nodup hnd
      (dictGet_isSome_of_mem (show (p.1, p.2) ∈ c.cache by simpa using hmem))
  constructor
  · by_cases habs : dictGet (generateKey key) c.cache = none
    · by_cases hfull : c.max_size ≤ c.cache.length
      · have hne : c.cache ≠ [] := by
          intro h0
          rw [h0] at hfull
          simp at hfull
          omega
        obtain ⟨p, hp⟩ := minByLastAccessed_isSome hne
        obtain ⟨hmem, -⟩ := minByLastAccessed_spec hp
        have hlen := hevict habs hfull
        have hne2 : generateKey key ≠ p.1 := by
          intro he
          have := dictGet_isSome_of_mem
            (show (p.1, p.2) ∈ c.cache by simpa using hmem)
          rw [← he, habs] at this
          simp at this
        have habs2 :
            dictGet (generateKey key) (MemoryCache.evictLRU c.cache) = none := by
          unfold MemoryCache.evictLRU
          rw [hp, dictGet_dictErase_ne hne2]
          exact habs
        show (dictSet _ _ _).length ≤ _
        rw [if_pos ⟨hfull, by simp [habs]⟩, length_dictSet_absent habs2]
        have := c.size
        simp only [MemoryCache.size] at hsz
        omega
      · show (dictSet _ _ _).length ≤ _
        rw [if_neg (by simp [hfull]), length_dictSet_absent habs]
        simp only [MemoryCache.size] at hsz
        omega
    · have hsome : (dictGet (generateKey key) c.cache).isSome :=
        Option.ne_none_iff_isSome.mp habs
      show (dictSet _ _ _).length ≤ _
      rw [if_neg (by simp [Option.isNone_iff_eq_none, habs]),
        length_dictSet_present hsome]
      exact hsz
  · intro hfull habs
    exact hevict habs (by simp only [MemoryCache.size] at hfull; omega)

/-- C2 witness: the amended bound applied to a concrete full cache of
capacity 1 receiving a new key. -/
theorem C2_set_size_bound_witness :
    let c : MemoryCache Nat :=
      { cache := [("a", CacheItem.create 0 3600 0)],
        default_ttl := 3600, max_size := 1 }
    (1 ≤ c.max_size ∧ ((c.cache.map Prod.fst).Nodup) ∧ c.size ≤ c.max_size) ∧
    ((c.set (.str "b") 5 none 1).size ≤ c.max_size ∧
     (c.size = c.max_size → dictGet (generateKey (.str "b")) c.cache = none →
       (MemoryCache.evictLRU c.cache).length + 1 = c.cache.length)) :=
  ⟨⟨by decide, by decide, by decide⟩,
   C2_set_size_bound _ (.str "b") 5 none 1 (by decide) (by decide) (by decide)⟩

/-! ## C4: `get` is total and never serves an expired item -/

/-- C4: `get(key, default)` is modelled by a total function (it cannot
raise); on an absent key it returns the default and leaves the cache
unchanged; on an expired item it returns the default and deletes the
stale entry; on a live item it returns the stored value after
incrementing the access count and refreshing the last-accessed time;
whenever it returns something other than the default, the serving item
was not expired; and `exists` answers true only for a live item. -/
theorem C4_get_never_raises {α : Type} (c : MemoryCache α) (key : PyKey)
    (dflt : α) (now : Int) :
    (dictGet (generateKey key) c.cache = none →
      c.get key dflt now = (dflt, c)) ∧
    (∀ item, dictGet (generateKey key) c.cache = some item →
      item.is_expired now = true →
      (c.get key dflt now).1 = dflt ∧
      dictGet (generateKey key) (c.get key dflt now).2.cache = none) ∧
    (∀ item, dictGet (generateKey key) c.cache = some item →
      item.is_expired now = false →
      (c.get key dflt now).1 = item.value ∧
      dictGet (generateKey key) (c.get key dflt now).2.cache =
        some { item with access_count := item.access_count + 1,
                         last_accessed := now }) ∧
    (∀ item, dictGet (generateKey key) c.cache = some item →
      (c.get key dflt now).1 ≠ dflt →
      item.is_expired now = false ∧ (c.get key dflt now).1 = item.value) ∧
    ((c.existsKey key now).1 = true →
      ∃ item, dictGet (generateKey key) c.cache = some item ∧
        item.is_expired now = false) := by
  refine ⟨?_, ?_, ?_, ?_, ?_⟩
  · intro h
    simp [MemoryCache.get, h]
  · intro item h hexp
    simp [MemoryCache.get, h, hexp, dictGet_dictErase_self]
  · intro item h hexp
    simp [MemoryCache.get, h, hexp, dictGet_dictSet_self, CacheItem.touch]
  · intro item h hne
    by_cases hexp : item.is_expired now = true
    · exact absurd (by simp [MemoryCache.get, h, hexp]) hne
    · rw [Bool.not_eq_true] at hexp
      exact ⟨hexp, by simp [MemoryCache.get, h, hexp]⟩
  · intro htrue
    match hdg : dictGet (generateKey key) c.cache with
    | none => simp [MemoryCache.existsKey, hdg] at htrue
    | some item =>
      by_cases hexp : item.is_expired now = true
      · simp [MemoryCache.existsKey, hdg, hexp] at htrue
      · exact ⟨item, rfl, by simpa using hexp⟩

/-- C4 witness: the specification applied to a concrete cache holding one
live and one expired entry, read at time 6. -/
theorem C4_get_never_raises_witness :
    let cw : MemoryCache Nat :=
      { cache :=
          [("live", { value := 7, ttl := 10, created_at := 0,
                      access_count := 0, last_accessed := 0 }),
           ("dead", { value := 8, ttl := 5, created_at := 0,
                      access_count := 0, last_accessed := 0 })],
        default_ttl := 3600, max_size := 10 }
    ((cw.get (.str "dead") 0 6).1 = 0 ∧
     dictGet "dead" (cw.get (.str "dead") 0 6).2.cache = none) ∧
    ((cw.get (.str "live") 0 6).1 = 7) := by
  refine ⟨?_, ?_⟩
  · exact (C4_get_never_raises _ (.str "dead") 0 6).2.1
      { value := 8, ttl := 5, created_at := 0,
        access_count := 0, last_accessed := 0 } (by decide) (by decide)
  · exact ((C4_get_never_raises _ (.str "live") 0 6).2.2.1
      { value := 7, ttl := 10, created_at := 0,
        access_count := 0, last_accessed := 0 } (by decide) (by decide)).1

/-! ## C3: LRU eviction -/

/-- Unfolding equation for `MemoryCache.set`. -/
theorem MemoryCache.set_cache {α : Type} (c : MemoryCache α) (key : PyKey)
    (v : α) (ttl : Option Int) (now : Int) :
    (c.set key v ttl now).cache =
      dictSet (generateKey key) (CacheItem.create v (c.effectiveTtl ttl) now)
        (if c.max_size ≤ c.cache.length ∧ (dictGet (generateKey key) c.cache).isNone
         then MemoryCache.evictLRU c.cache else c.cache) := rfl

/-- C3: when a full cache receives a new key, the entry selected by
`_evict_lru` attains the minimal `lastAccessedAt` among all entries (the
first such entry in iteration order, as Python's `min` breaks ties) and
is absent after the `set`; and concretely, with `maxSize = 2`, after
`set A; set B; get A; set C` (at strictly increasing clock times) key `B`
has been evicted while `A` and `C` are both present. -/
theorem C3_lru_eviction {α : Type} (c : MemoryCache α) (key : PyKey)
    (v : α) (ttl : Option Int) (now : Int)
    (hfull : c.max_size ≤ c.cache.length)
    (hnew : dictGet (generateKey key) c.cache = none)
    (hne : c.cache ≠ []) :
    (∃ k₀ item₀, MemoryCache.minByLastAccessed c.cache = some (k₀, item₀) ∧
      (k₀, item₀) ∈ c.cache ∧
      (∀ q ∈ c.cache, item₀.last_accessed ≤ q.2.last_accessed) ∧
      dictGet k₀ (c.set key v ttl now).cache = none) ∧
    (let c0 : MemoryCache Nat := MemoryCache.init 3600 2
     let c1 := c0.set (.str "A") 1 none 0
     let c2 := c1.set (.str "B") 2 none 1
     let c3 := (c2.get (.str "A") 0 2).2
     let c4 := c3.set (.str "C") 3 none 3
     dictGet "B" c4.cache = none ∧
     (dictGet "A" c4.cache).isSome ∧ (dictGet "C" c4.cache).isSome) := by
  constructor
  · obtain ⟨p, hp⟩ := minByLastAccessed_isSome hne
    obtain ⟨hmem, hmin⟩ := minByLastAccessed_spec hp
    have hp1 : (dictGet p.1 c.cache).isSome :=
      dictGet_isSome_of_mem (show (p.1, p.2) ∈ c.cache by simpa using hmem)
    have hnek : p.1 ≠ generateKey key := by
      intro he
      rw [he, hnew] at hp1
      simp at hp1
    refine ⟨p.1, p.2, by simpa using hp, by simpa using hmem,
      fun q hq => hmin q hq, ?_⟩
    rw [MemoryCache.set_cache, if_pos ⟨hfull, by simp [hnew]⟩]
    unfold MemoryCache.evictLRU
    rw [hp, dictGet_dictSet_ne hnek, dictGet_dictErase_self]
  · decide

/-- C3 witness: the eviction characterization applied to a concrete full
two-entry cache receiving a new key. -/
theorem C3_lru_eviction_witness :
    let c : MemoryCache Nat :=
      { cache :=
          [("A", { value := 1, ttl := 3600, created_at := 0,
                   access_count := 1, last_accessed := 2 }),
           ("B", { value := 2, ttl := 3600, created_at := 1,
                   access_count := 0, last_accessed := 1 })],
        default_ttl := 3600, max_size := 2 }
    (c.max_size ≤ c.cache.length ∧ dictGet (generateKey (.str "C")) c.cache = none ∧
     c.cache ≠ []) ∧
    (∃ k₀ item₀, MemoryCache.minByLastAccessed c.cache = some (k₀, item₀) ∧
      (k₀, item₀) ∈ c.cache ∧
      (∀ q ∈ c.cache, item₀.last_accessed ≤ q.2.last_accessed) ∧
      dictGet k₀ (c.set (.str "C") 3 none 3).cache = none) :=
  ⟨⟨by decide, by decide, by decide⟩,
   (C3_lru_eviction _ (.str "C") 3 none 3 (by decide) (by decide) (by decide)).1⟩

/-! ## C9: a cached `None` is indistinguishable from absence in `get` -/

/-- C9: after `set(k, None, ttl)` with a positive TTL, while the entry is
live `exists(k)` answers true, yet `get(k)` with the default default
returns `None` exactly as for an absent key; consequently the caching
decorator, which treats a `None` lookup result as a miss, re-executes a
wrapped function returning `None` (and re-stores `None`, so every later
call re-executes it as well). -/
theorem C9_none_value_not_served {β : Type} (c : MemoryCache (Option β))
    (key : PyKey) (ttl : Int) (t t' : Int)
    (httl : 0 < ttl) (hlive : t' ≤ t + ttl) :
    ((c.set key none (some ttl) t).existsKey key t').1 = true ∧
    ((c.set key none (some ttl) t).get key none t').1 = none ∧
    (∀ f : Unit → Option β, f () = none →
      (cachedCall (c.set key none (some ttl) t) f key ttl t').2.2 = true ∧
      (cachedCall (c.set key none (some ttl) t) f key ttl t').1 = none ∧
      dictGet (generateKey key)
          (cachedCall (c.set key none (some ttl) t) f key ttl t').2.1.cache =
        some (CacheItem.create none ttl t')) := by
  have httl0 : ttl ≠ 0 := by omega
  have heff : ∀ (d : MemoryCache (Option β)), d.effectiveTtl (some ttl) = ttl := by
    intro d
    simp [MemoryCache.effectiveTtl, httl0]
  have hdg : dictGet (generateKey key) (c.set key none (some ttl) t).cache =
      some (CacheItem.create none ttl t) := by
    rw [MemoryCache.set_cache, heff, dictGet_dictSet_self]
  have hexp : (CacheItem.create (none : Option β) ttl t).is_expired t' = false := by
    simp only [CacheItem.is_expired, CacheItem.create]
    rw [if_neg (by omega)]
    simp
    omega
  refine ⟨?_, ?_, ?_⟩
  · simp [MemoryCache.existsKey, hdg, hexp]
  · simp only [MemoryCache.get, hdg, hexp]
    simp [CacheItem.create]
  · intro f hf
    have hget : (c.set key none (some ttl) t).get key none t' =
        (none, { c.set key none (some ttl) t with
                 cache := dictSet (generateKey key)
                   ((CacheItem.create none ttl t).touch t')
                   (c.set key none (some ttl) t).cache }) := by
      simp only [MemoryCache.get, hdg, hexp]
      simp [CacheItem.create]
    refine ⟨?_, ?_, ?_⟩
    · simp [cachedCall, hget, hf]
    · simp [cachedCall, hget, hf]
    · simp only [cachedCall, hget, hf]
      rw [MemoryCache.set_cache, heff, dictGet_dictSet_self]

/-- C9 witness: a concrete cache that stored `None` under key `"k"` with
TTL 5 at time 0, probed at time 3 with a wrapped function returning
`None`. -/
theorem C9_none_value_not_served_witness :
    let c : MemoryCache (Option Nat) := MemoryCache.init 3600 10
    (0 < (5 : Int) ∧ (3 : Int) ≤ 0 + 5) ∧
    ((c.set (.str "k") none (some 5) 0).existsKey (.str "k") 3).1 = true ∧
    ((c.set (.str "k") none (some 5) 0).get (.str "k") none 3).1 = none ∧
    (cachedCall (c.set (.str "k") none (some 5) 0)
      (fun _ => none) (.str "k") 5 3).2.2 = true := by
  refine ⟨⟨by decide, by decide⟩, ?_⟩
  have h := C9_none_value_not_served
    (MemoryCache.init 3600 10 : MemoryCache (Option Nat))
    (.str "k") 5 0 3 (by decide) (by decide)
  exact ⟨h.1, h.2.1, (h.2.2 (fun _ => none) rfl).1⟩

/-! ## C10: lists and tuples collapse to one cache identity -/

/-- C10: `_generate_key` serializes a tuple through `list(key)`, so a
list and a tuple with the same elements in the same order produce the
same cache key; hence a `get` keyed by the tuple observes an entry stored
under the list (and vice versa), as in the concrete
`("a", 1)` / `["a", 1]` pair. -/
theorem C10_list_tuple_one_identity :
    (∀ l : List PyVal, generateKey (.list l) = generateKey (.tuple l)) ∧
    (∀ (α : Type) (c : MemoryCache α) (v dflt : α) (ttl : Option Int)
       (now : Int) (l : List PyVal),
      ((c.set (.list l) v ttl now).get (.tuple l) dflt now).1 = v ∧
      ((c.set (.tuple l) v ttl now).get (.list l) dflt now).1 = v) ∧
    generateKey (.tuple [.str "a", .int 1]) =
      generateKey (.list [.str "a", .int 1]) := by
  have hkey : ∀ l : List PyVal, generateKey (.list l) = generateKey (.tuple l) :=
    fun l => rfl
  have hfresh : ∀ (α : Type) (c : MemoryCache α) (v : α) (ttl : Option Int)
      (now : Int), (CacheItem.create v (c.effectiveTtl ttl) now).is_expired now
        = false := by
    intro α c v ttl now
    simp only [CacheItem.is_expired, CacheItem.create]
    by_cases h0 : c.effectiveTtl ttl ≤ 0
    · simp [h0]
    · rw [if_neg h0]
      simp
      omega
  refine ⟨hkey, ?_, rfl⟩
  intro α c v dflt ttl now l
  constructor
  · have hdg : dictGet (generateKey (.tuple l))
        (c.set (.list l) v ttl now).cache =
        some (CacheItem.create v (c.effectiveTtl ttl) now) := by
      rw [MemoryCache.set_cache, ← hkey, dictGet_dictSet_self]
    have he := hfresh α c v ttl now
    simp only [MemoryCache.get, hdg, he]
    simp [CacheItem.create]
  · have hdg : dictGet (generateKey (PyKey.list l))
        (c.set (.tuple l) v ttl now).cache =
        some (CacheItem.create v (c.effectiveTtl ttl) now) := by
      rw [MemoryCache.set_cache, hkey, dictGet_dictSet_self]
    have he := hfresh α c v ttl now
    simp only [MemoryCache.get, hdg, he]
    simp [CacheItem.create]

/-! ## C6: the estimator is a pure deterministic function -/

/-- C6: the estimator is modelled as a pure function of
`(name, population, region)` and of the provider's reply; it reads no
other state and uses no randomness (its jitter is derived from the MD5
hash of the name), so two invocations on identical inputs — in
particular two calls for `("Ruritania", 2000000, "Europe")` with the
provider returning no data both times — return identical results in
every field. -/
theorem C6_estimator_deterministic :
    (∀ (n₁ n₂ : String) (p₁ p₂ : Nat) (r₁ r₂ : Option String)
       (w₁ w₂ : Option WBData), n₁ = n₂ → p₁ = p₂ → r₁ = r₂ → w₁ = w₂ →
      get_economic_data n₁ p₁ r₁ w₁ = get_economic_data n₂ p₂ r₂ w₂) ∧
    get_economic_data "Ruritania" 2000000 (some "Europe") none =
      get_economic_data "Ruritania" 2000000 (some "Europe") none := by
  constructor
  · intro n₁ n₂ p₁ p₂ r₁ r₂ w₁ w₂ hn hp hr hw
    rw [hn, hp, hr, hw]
  · rfl

/-- C6 witness: the determinism contract applied to the spec's concrete
Ruritania call. -/
theorem C6_estimator_deterministic_witness :
    get_economic_data "Ruritania" 2000000 (some "Europe") none =
      get_economic_data "Ruritania" 2000000 (some "Europe") none :=
  C6_estimator_deterministic.1 "Ruritania" "Ruritania" 2000000 2000000
    (some "Europe") (some "Europe") none none rfl rfl rfl rfl

/-! ## C7: the static-table tier -/

/-- C7: when the provider returns no data and the country is in the
static table, the result is tagged `"sample"`, `gdp` is the table value,
and `gdp_per_capita` is computed as `gdp / population` (0 for a zero
population), never read from the table; concretely the Comoros row gives
`gdp = 1.2e9` and `gdp_per_capita = 1.2e9 / 9e5`. -/
theorem C7_sample_tier (country_name : String) (population : Nat)
    (region : Option String) (entry : SampleEntry)
    (hlook : dictGet country_name sample_data = some entry) :
    (get_economic_data country_name population region none).data_source
        = "sample" ∧
    (get_economic_data country_name population region none).gdp
        = entry.gdp ∧
    (get_economic_data country_name population region none).gdp_per_capita
        = (if population > 0 then entry.gdp / (population : ℚ) else 0) ∧
    (get_economic_data country_name population region none).hdi
        = entry.hdi ∧
    (get_economic_data country_name population region none).life_expectancy
        = entry.life_expectancy ∧
    (get_economic_data country_name population region none).internet_penetration
        = entry.internet_penetration ∧
    (get_economic_data "Comoros" 900000 (some "Africa") none).gdp
        = 1200000000 ∧
    (get_economic_data "Comoros" 900000 (some "Africa") none).gdp_per_capita
        = 1200000000 / 900000 := by
  have hcom : dictGet "Comoros" sample_data =
      some (⟨1200000000, 0.554, 64.3, 8.0⟩ : SampleEntry) := rfl
  refine ⟨?_, ?_, ?_, ?_, ?_, ?_, ?_, ?_⟩ <;>
    norm_num [get_economic_data, hlook, hcom]

/-- C7 witness: the static fallback applied to the Comoros row of the
table. -/
theorem C7_sample_tier_witness :
    dictGet "Comoros" sample_data =
      some ⟨1200000000, 0.554, 64.3, 8.0⟩ ∧
    (get_economic_data "Comoros" 900000 (some "Africa") none).data_source
        = "sample" ∧
    (get_economic_data "Comoros" 900000 (some "Africa") none).gdp_per_capita
        = (if (900000 : Nat) > 0
           then (1200000000 : ℚ) / ((900000 : Nat) : ℚ) else 0) := by
  have h := C7_sample_tier "Comoros" 900000 (some "Africa")
    ⟨1200000000, 0.554, 64.3, 8.0⟩ rfl
  exact ⟨rfl, h.1, h.2.2.1⟩

/-! ## C8: the deterministic estimation tier and its clamped ranges -/

/-- Round-half-to-even at `n` decimal digits stays inside any interval
whose endpoints are themselves multiples of `10 ^ (-n)`. -/
theorem pyRound_mem (lo hi : ℤ) (x : ℚ) (n : Nat)
    (hlo : (lo : ℚ) / 10 ^ n ≤ x) (hhi : x ≤ (hi : ℚ) / 10 ^ n) :
    (lo : ℚ) / 10 ^ n ≤ pyRound x n ∧ pyRound x n ≤ (hi : ℚ) / 10 ^ n := by
  have hm : (0 : ℚ) < (10 : ℚ) ^ n := by positivity
  have hlo' : (lo : ℚ) ≤ x * 10 ^ n := by
    rw [div_le_iff₀ hm] at hlo
    exact hlo
  have hhi' : x * 10 ^ n ≤ (hi : ℚ) := by
    rw [le_div_iff₀ hm] at hhi
    exact hhi
  have hfl_lo : lo ≤ ⌊x * 10 ^ n⌋ := Int.le_floor.mpr hlo'
  have hfl_hi : ⌊x * 10 ^ n⌋ ≤ hi := by
    have h1 : ⌊x * 10 ^ n⌋ ≤ ⌊(hi : ℚ)⌋ := Int.floor_le_floor hhi'
    simpa using h1
  have hfr : (⌊x * 10 ^ n⌋ : ℚ) ≤ x * 10 ^ n := Int.floor_le _
  have hhalf : ¬ (x * 10 ^ n - (⌊x * 10 ^ n⌋ : ℚ) < 1 / 2) →
      ⌊x * 10 ^ n⌋ + 1 ≤ hi := by
    intro hge
    push_neg at hge
    have hlt : (⌊x * 10 ^ n⌋ : ℚ) < (hi : ℚ) := by linarith
    exact Int.add_one_le_iff.mpr (by exact_mod_cast hlt)
  have main : ∀ r : ℤ, lo ≤ r → r ≤ hi →
      (lo : ℚ) / 10 ^ n ≤ (r : ℚ) / 10 ^ n ∧
      (r : ℚ) / 10 ^ n ≤ (hi : ℚ) / 10 ^ n := by
    intro r h1 h2
    constructor
    · exact (div_le_div_iff_of_pos_right hm).mpr (by exact_mod_cast h1)
    · exact (div_le_div_iff_of_pos_right hm).mpr (by exact_mod_cast h2)
  simp only [pyRound]
  split_ifs with h1 h2 h3
  · exact main _ hfl_lo hfl_hi
  · exact main _ (by omega) (hhalf h1)
  · exact main _ hfl_lo hfl_hi
  · exact main _ (by omega) (hhalf h1)

/-- A clamped value rounded at `n` digits stays inside the clamp bounds,
when those bounds are `n`-digit decimals. -/
theorem pyRound_clamp_mem (lo hi : ℤ) (a b x : ℚ) (n : Nat)
    (ha : (lo : ℚ) / 10 ^ n = a) (hb : (hi : ℚ) / 10 ^ n = b) (hab : a ≤ b) :
    a ≤ pyRound (min b (max a x)) n ∧ pyRound (min b (max a x)) n ≤ b := by
  have h1 : a ≤ min b (max a x) := le_min hab (le_max_left _ _)
  have h2 : min b (max a x) ≤ b := min_le_left _ _
  have h := pyRound_mem lo hi (min b (max a x)) n (ha ▸ h1) (hb ▸ h2)
  exact ⟨ha ▸ h.1, hb ▸ h.2⟩

/-- C8: for any country absent from the static table, any population and
any region, with the provider returning no data the estimator reaches the
terminal tier and produces a result tagged `"estimated"` whose HDI lies
in [0.3, 0.99], life expectancy in [50, 85] and internet penetration in
[5, 95] — each value is clamped to that interval and then rounded at a
granularity that preserves it. -/
theorem C8_estimated_tier (country_name : String) (population : Nat)
    (region : Option String)
    (hmiss : dictGet country_name sample_data = none) :
    (get_economic_data country_name population region none).data_source
        = "estimated" ∧
    (0.3 ≤ (get_economic_data country_name population region none).hdi ∧
     (get_economic_data country_name population region none).hdi ≤ 0.99) ∧
    (50 ≤ (get_economic_data country_name population region none).life_expectancy ∧
     (get_economic_data country_name population region none).life_expectancy ≤ 85) ∧
    (5 ≤ (get_economic_data country_name population region none).internet_penetration ∧
     (get_economic_data country_name population region none).internet_penetration ≤ 95) := by
  simp only [get_economic_data, hmiss]
  refine ⟨trivial, ?_, ?_, ?_⟩
  · exact pyRound_clamp_mem 300 990 0.3 0.99 _ 3
      (by norm_num) (by norm_num) (by norm_num)
  · exact pyRound_clamp_mem 500 850 50 85 _ 1
      (by norm_num) (by norm_num) (by norm_num)
  · exact pyRound_clamp_mem 50 950 5 95 _ 1
      (by norm_num) (by norm_num) (by norm_num)

/-- C8 witness: the estimation tier applied to the spec's Ruritania
input, which is absent from the static table. -/
theorem C8_estimated_tier_witness :
    dictGet "Ruritania" sample_data = none ∧
    (get_economic_data "Ruritania" 2000000 (some "Europe") none).data_source
        = "estimated" ∧
    0.3 ≤ (get_economic_data "Ruritania" 2000000 (some "Europe") none).hdi ∧
    (get_economic_data "Ruritania" 2000000 (some "Europe") none).hdi ≤ 0.99 := by
  have h := C8_estimated_tier "Ruritania" 2000000 (some "Europe") rfl
  exact ⟨rfl, h.1, h.2.1.1, h.2.1.2⟩

/-! ## C5: key normalization -/

/-- Sorting the items of a dict is invariant under the insertion order:
two permutations of the same pair list with distinct keys sort to the
same list. -/
theorem pySortItems_eq_of_perm {d₁ d₂ : List (String × PyVal)}
    (hperm : d₁.Perm d₂) (hnd : (d₁.map Prod.fst).Nodup) :
    pySortItems d₁ = pySortItems d₂ := by
  have htrans : ∀ a b c : String × PyVal,
      decide (a.1 ≤ b.1) = true → decide (b.1 ≤ c.1) = true →
      decide (a.1 ≤ c.1) = true := by
    intro a b c hab hbc
    simp only [decide_eq_true_eq] at *
    exact le_trans hab hbc
  have htotal : ∀ a b : String × PyVal,
      (decide (a.1 ≤ b.1) || decide (b.1 ≤ a.1)) = true := by
    intro a b
    simp only [Bool.or_eq_true, decide_eq_true_eq]
    exact le_total a.1 b.1
  have hp₁ : (pySortItems d₁).Perm d₁ := List.mergeSort_perm d₁ _
  have hp₂ : (pySortItems d₂).Perm d₂ := List.mergeSort_perm d₂ _
  have hpp : (pySortItems d₁).Perm (pySortItems d₂) :=
    (hp₁.trans hperm).trans hp₂.symm
  have hstrict : ∀ d : List (String × PyVal), (d.map Prod.fst).Nodup →
      (pySortItems d).Pairwise fun p q => p.1 < q.1 := by
    intro d hd
    have hsorted : (pySortItems d).Pairwise
        (fun p q => decide (p.1 ≤ q.1) = true) :=
      List.sorted_mergeSort htrans htotal d
    have hndmap : ((pySortItems d).map Prod.fst).Nodup :=
      (((List.mergeSort_perm d _).map Prod.fst).nodup_iff).mpr hd
    have hne : (pySortItems d).Pairwise fun p q => p.1 ≠ q.1 :=
      List.pairwise_map.mp hndmap
    exact (hsorted.and hne).imp fun h =>
      lt_of_le_of_ne (by simpa using h.1) h.2
  have hnd₂ : (d₂.map Prod.fst).Nodup := ((hperm.map Prod.fst).nodup_iff).mp hnd
  haveI : IsAntisymm (String × PyVal) (fun p q => p.1 < q.1) :=
    ⟨fun a b h1 h2 => absurd h2 (lt_asymm h1)⟩
  exact List.eq_of_perm_of_sorted hpp (hstrict d₁ hnd) (hstrict d₂ hnd₂)

/-- Every Unicode scalar value fits in 32 bits. -/
theorem char_toNat_lt (c : Char) : c.toNat < 4294967296 := by
  have := c.val.val.isLt
  simpa [Char.toNat, UInt32.toNat] using this

/-- Characters with equal scalar values are equal. -/
theorem char_toNat_inj {c d : Char} (h : c.toNat = d.toNat) : c = d := by
  rcases c with ⟨⟨cv⟩, hc⟩
  rcases d with ⟨⟨dv⟩, hd⟩
  simp only [Char.toNat, UInt32.toNat] at h
  have hv : cv = dv := BitVec.eq_of_toNat_eq h
  subst hv
  rfl

/-- An MD5 digest consists of 16 bytes. -/
theorem digestBytes_length (msg : List Nat) :
    (MD5.digestBytes msg).length = 16 := by
  simp only [MD5.digestBytes]
  rcases (MD5.chunks64 (MD5.pad msg)).foldl MD5.compress
    (0x67452301, 0xefcdab89, 0x98badcfe, 0x10325476) with ⟨a, b, c, d⟩
  simp [MD5.leBytes]

/-- An MD5 hex digest consists of 32 characters. -/
theorem md5Hex_data_length (s : String) : (md5Hex s).data.length = 32 := by
  simp only [md5Hex, String.data]
  rw [List.length_flatMap]
  have h : ∀ b : Nat,
      (List.length ∘ fun b => [MD5.hexDigit (b / 16), MD5.hexDigit (b % 16)]) b
        = 2 := fun b => rfl
  rw [List.map_congr_left fun b _ => h b, List.map_const']
  simp [List.sum_replicate, digestBytes_length, smul_eq_mul]

/-- C5 counterexample: the claimed "two sequences normalize to the same
identifier if and only if they contain the same elements in the same
order" fails in its only-if direction: the normalizer maps the
infinitely many one-element integer sequences into 32-character hex
digests, whose scalar values fit in `Fin 32 → Fin 2^32`, a finite type,
so by the pigeonhole principle two distinct sequences share an
identifier. -/
theorem C5_sequence_iff_cex :
    ¬ (∀ l₁ l₂ : List PyVal,
        generateKey (.list l₁) = generateKey (.list l₂) → l₁ = l₂) := by
  intro hinj
  have hlen : ∀ n : Int, (generateKey (.list [.int n])).data.length = 32 :=
    fun n => md5Hex_data_length _
  obtain ⟨n₁, n₂, hne, heq⟩ := Finite.exists_ne_map_eq_of_infinite
    (fun (n : Int) (i : Fin 32) =>
      (⟨((generateKey (.list [.int n])).data.get
          ⟨i.1, by rw [hlen n]; exact i.isLt⟩).toNat,
        char_toNat_lt _⟩ : Fin 4294967296))
  apply hne
  have hstr : generateKey (.list [.int n₁]) = generateKey (.list [.int n₂]) := by
    apply String.ext
    apply List.ext_get (by rw [hlen, hlen])
    intro i h₁ h₂
    have hi : i < 32 := by
      rw [hlen n₁] at h₁
      exact h₁
    exact char_toNat_inj
      (by simpa using congrArg Fin.val (congrFun heq ⟨i, hi⟩))
  have hl := hinj _ _ hstr
  simpa using hl

/-- C5 (amended): the normalizer is the identity on strings; two dicts
holding the same key-value pairs in any insertion order normalize to the
same identifier; two sequences with the same elements in the same order
normalize identically, and the spec's example sequences
`["x","y"]` / `["y","x"]` normalize differently. (The original claim's
universal "same identifier only if same sequence" cannot hold for a
fixed-width hash and is refuted nonconstructively; the order sensitivity
it expresses is retained at the spec's own witness pair.) -/
theorem C5_key_normalization :
    (∀ s : String, generateKey (.str s) = s) ∧
    (∀ d₁ d₂ : List (String × PyVal), d₁.Perm d₂ →
      (d₁.map Prod.fst).Nodup →
      generateKey (.dict d₁) = generateKey (.dict d₂)) ∧
    (∀ l₁ l₂ : List PyVal, l₁ = l₂ →
      generateKey (.list l₁) = generateKey (.list l₂)) ∧
    generateKey (.dict [("a", .int 1), ("b", .int 2)]) =
      generateKey (.dict [("b", .int 2), ("a", .int 1)]) ∧
    generateKey (.list [.str "x", .str "y"]) ≠
      generateKey (.list [.str "y", .str "x"]) := by
  have hdict : ∀ d₁ d₂ : List (String × PyVal), d₁.Perm d₂ →
      (d₁.map Prod.fst).Nodup →
      generateKey (.dict d₁) = generateKey (.dict d₂) := by
    intro d₁ d₂ hperm hnd
    simp only [generateKey]
    rw [pySortItems_eq_of_perm hperm hnd]
  refine ⟨fun s => rfl, hdict, fun l₁ l₂ h => by rw [h], ?_, ?_⟩
  · exact hdict _ _ (List.Perm.swap ("b", PyVal.int 2) ("a", PyVal.int 1) []) (by decide)
  · decide

/-- C5 witness: dict-order invariance applied to a concrete pair of
two-entry dicts differing in insertion order. -/
theorem C5_key_normalization_witness :
    generateKey (.dict [("x", .int 5), ("y", .int 6)]) =
      generateKey (.dict [("y", .int 6), ("x", .int 5)]) :=
  C5_key_normalization.2.1 _ _ (List.Perm.swap ("y", PyVal.int 6) ("x", PyVal.int 5) [])
    (by decide)
